import Mathlib

set_option maxRecDepth 8000

/-!
Verification of the crowdworks-monitor repository against its specification.

The Python sources are shallowly embedded:
* `job_utils.extract_price_from_text` and its regex cascade become executable
  functions over `List Char` returning a `PyResult` (a value, or a
  propagating `OverflowError` — the function has no `try`/`except`, and
  `int(float(s))` raises once the numeral reaches the IEEE-double overflow
  threshold).  Below that threshold, Python `float` values are modelled as
  exact rationals; the claim theorems are instantiated only in the region
  where IEEE doubles and exact rationals agree, with explicit bounds.
* `JobStorage.update_jobs` works on an association list with Python-dict
  insertion-order semantics.
* `JobMonitorApp._send_email_notification` becomes a pure function that
  reports which SMTP ports were attempted and whether an exception propagates;
  the outcome of each SMTP attempt is an input.
* `job_utils.is_within_days` / `price_in_range` / `get_job_price` are embedded
  with Python dictionaries replaced by structures carrying the accessed fields.
-/

namespace CrowdworksMonitor

/-- Python `\s` (whitespace) over the character repertoire used by this
repository: ASCII whitespace plus NBSP and the ideographic space. -/
def isPySpace (c : Char) : Bool :=
  c = ' ' || c = '\t' || c = '\n' || c = '\r' || c = '\x0b' || c = '\x0c' ||
  c = ' ' || c = '　'

/-- Python `\w` (Unicode word character) over the repertoire used by this
repository: ASCII alphanumerics, underscore, hiragana, katakana (including the
prolonged sound mark), and CJK unified ideographs. -/
def isWordChar (c : Char) : Bool :=
  c.isAlphanum || c = '_' ||
  (0x3041 ≤ c.toNat && c.toNat ≤ 0x309F) ||
  (0x30A1 ≤ c.toNat && c.toNat ≤ 0x30FF) ||
  (0x4E00 ≤ c.toNat && c.toNat ≤ 0x9FFF)

/-- Python substring containment `pat in s`. -/
def containsSub (pat : List Char) : List Char → Bool
  | [] => pat.isEmpty
  | c :: cs => pat.isPrefixOf (c :: cs) || containsSub pat cs

/-- Numeric value of a digit string, as produced by Python `int` on it. -/
def natOfDigits (cs : List Char) : Nat :=
  cs.foldl (fun a c => 10 * a + (c.toNat - 48)) 0

/-- Exact rational value of a numeral `s` of the shape `digits` or
`digits.digits` (the only shapes produced by the scanners below).  Python
`float(s)` rounds this value to the nearest IEEE-754 double (values at or
above `floatOverflowNat` round to `inf`), so the two agree only on the
double-exact region; the theorems below instantiate it only there, with
explicit bounds. -/
def ratOfNum (cs : List Char) : ℚ :=
  let ip := cs.takeWhile (fun c => c ≠ '.')
  match cs.drop ip.length with
  | [] => (natOfDigits ip : ℚ)
  | _ :: frac => (natOfDigits ip : ℚ) + (natOfDigits frac : ℚ) / (10 ^ frac.length)

/-- Python `int()` applied to a finite float: truncation toward zero. -/
def pyTrunc (q : ℚ) : Int :=
  if q < 0 then -(Int.floor (-q)) else Int.floor q

/-- The IEEE-754 double overflow threshold, the midpoint of `DBL_MAX` and
`2^1024`: round-to-nearest-even sends every value at or above it to `+inf`,
and Python's `int(inf)` then raises `OverflowError`. -/
def floatOverflowNat : Nat := (2 ^ 54 - 1) * 2 ^ 970

/-- Result of a Python call that can raise: a returned value or a
propagating exception (here always `OverflowError`). -/
inductive PyResult where
  | ret (v : Int)
  | raise
deriving DecidableEq, Repr

/-- Executable form of `int(float(s) * m)` for a nonnegative numeral `s` and
`m > 0`: `none` models the `OverflowError` raised when the value reaches the
double overflow threshold (`float` returns `inf` and `int(inf)` raises);
otherwise the value `(n₁ + n₂/10^k) * m` floored, computed exactly in `Nat`
arithmetic (kernel-reducible, unlike `ℚ`).  `intOfNumTimes_some_eq_pyTrunc`
and `intOfNumTimes_none_iff` below relate it to `pyTrunc (ratOfNum s * m)`;
in between, IEEE rounding of `float(s)` makes the exact-rational value an
idealization, so the claim theorems carry explicit exactness bounds. -/
def intOfNumTimes (cs : List Char) (m : Nat) : Option Nat :=
  let ip := cs.takeWhile (fun c => c ≠ '.')
  match cs.drop ip.length with
  | [] =>
    if floatOverflowNat ≤ natOfDigits ip * m then none
    else some (natOfDigits ip * m)
  | _ :: frac =>
    if floatOverflowNat * 10 ^ frac.length ≤
        (natOfDigits ip * 10 ^ frac.length + natOfDigits frac) * m then none
    else some ((natOfDigits ip * 10 ^ frac.length + natOfDigits frac) * m / 10 ^ frac.length)

/-- Python `str.split(sep)` for a single-character separator. -/
def splitOnChar (sep : Char) : List Char → List (List Char)
  | [] => [[]]
  | c :: cs =>
    let r := splitOnChar sep cs
    if c = sep then [] :: r
    else
      match r with
      | [] => [[c]]
      | h :: t => (c :: h) :: t

/-- Python `str.strip()`. -/
def pyStrip (cs : List Char) : List Char :=
  ((cs.dropWhile isPySpace).reverse.dropWhile isPySpace).reverse

/-- `suffix.isPrefixOf` after greedily skipping whitespace: the tail
`\s*<suffix>` of the money regexes. -/
def suffixMatches (suffix rest : List Char) : Bool :=
  suffix.isPrefixOf (rest.dropWhile isPySpace)

/-- One anchored attempt of `(\d+(?:\.\d+)?)\s*<suffix>` at the head of `cs`,
returning the captured numeral.  The optional fractional part is tried
greedily first; if the suffix then fails the regex falls back to the
integer-only reading (which can only succeed when no `.` follows, matching
the backtracking behaviour of the Python pattern). -/
def matchNumSuffixAt (suffix cs : List Char) : Option (List Char) :=
  let d1 := cs.takeWhile Char.isDigit
  if d1.isEmpty then none
  else
    let r1 := cs.drop d1.length
    let withFrac : Option (List Char) :=
      match r1 with
      | '.' :: r2 =>
        let d2 := r2.takeWhile Char.isDigit
        if d2.isEmpty then none
        else if suffixMatches suffix (r2.drop d2.length) then some (d1 ++ '.' :: d2)
        else none
      | _ => none
    match withFrac with
    | some g => some g
    | none => if suffixMatches suffix r1 then some d1 else none

/-- Leftmost match of `(\d+(?:\.\d+)?)\s*<suffix>` — `re.findall(...)[0]`. -/
def findNumSuffix (suffix : List Char) : List Char → Option (List Char)
  | [] => none
  | c :: cs =>
    match matchNumSuffixAt suffix (c :: cs) with
    | some g => some g
    | none => findNumSuffix suffix cs

/-- One anchored attempt of `<kw>\s*(\d+(?:\.\d+)?)` at the head of `cs`. -/
def matchKeyNumAt (kw cs : List Char) : Option (List Char) :=
  if kw.isPrefixOf cs then
    let r := (cs.drop kw.length).dropWhile isPySpace
    let d1 := r.takeWhile Char.isDigit
    if d1.isEmpty then none
    else
      match r.drop d1.length with
      | '.' :: r2 =>
        let d2 := r2.takeWhile Char.isDigit
        if d2.isEmpty then some d1 else some (d1 ++ '.' :: d2)
      | _ => some d1
  else none

/-- Leftmost match of `<kw>\s*(\d+(?:\.\d+)?)`. -/
def findKeyNum (kw : List Char) : List Char → Option (List Char)
  | [] => none
  | c :: cs =>
    match matchKeyNumAt kw (c :: cs) with
    | some g => some g
    | none => findKeyNum kw cs

/-- Leftmost match of `\d{5,}` (no word boundaries): the first maximal digit
run of length at least 5. -/
def findRun5 : List Char → Option (List Char)
  | [] => none
  | c :: cs =>
    let r := (c :: cs).takeWhile Char.isDigit
    if 5 ≤ r.length then some r else findRun5 cs

/-- Whether a `\b` holds between the scanned digits and what follows. -/
def boundaryAfter : List Char → Bool
  | [] => true
  | c :: _ => !isWordChar c

/-- Leftmost match of `\b\d{4}\b`; `prevWord` records whether the character
before the current position is a word character. -/
def findB4 (prevWord : Bool) : List Char → Option (List Char)
  | [] => none
  | c :: cs =>
    let r := (c :: cs).takeWhile Char.isDigit
    if !prevWord && r.length = 4 && boundaryAfter ((c :: cs).drop r.length) then some r
    else findB4 (isWordChar c) cs

/-- Leftmost match of `\b\d{5,}\b`. -/
def findB5plus (prevWord : Bool) : List Char → Option (List Char)
  | [] => none
  | c :: cs =>
    let r := (c :: cs).takeWhile Char.isDigit
    if !prevWord && 5 ≤ r.length && boundaryAfter ((c :: cs).drop r.length) then some r
    else findB5plus (isWordChar c) cs

/-- Leftmost match of `\b\d{1,3}\b`. -/
def findB13 (prevWord : Bool) : List Char → Option (List Char)
  | [] => none
  | c :: cs =>
    let r := (c :: cs).takeWhile Char.isDigit
    if !prevWord && 1 ≤ r.length && r.length ≤ 3 &&
        boundaryAfter ((c :: cs).drop r.length) then some r
    else findB13 (isWordChar c) cs

/-- `int(float(n) * m)` as a `PyResult`: the `OverflowError` of `int(inf)`
propagates. -/
def convResult (n : List Char) (m : Nat) : PyResult :=
  match intOfNumTimes n m with
  | some v => PyResult.ret (v : Int)
  | none => PyResult.raise

/-- Step 1 of the cascade (`job_utils.py:363-367`): 万円-multiplier parsing. -/
def step1 (cs : List Char) : Option PyResult :=
  if containsSub ['万', '円'] cs then
    (findNumSuffix ['万', '円'] cs).map (fun n => convResult n 10000)
  else none

/-- Step 2 (`job_utils.py:369-376`): left operand of a `〜` range. -/
def step2 (cs : List Char) : Option PyResult :=
  if containsSub ['〜'] cs then
    if containsSub ['円'] (pyStrip ((splitOnChar '〜' cs).headD [])) then
      (findNumSuffix ['円'] (pyStrip ((splitOnChar '〜' cs).headD []))).map
        (fun n => convResult n 1)
    else none
  else none

/-- Step 3 (`job_utils.py:378-382`): number after the hourly-wage keyword. -/
def step3 (cs : List Char) : Option PyResult :=
  if containsSub ['時', '給'] cs then
    (findKeyNum ['時', '給'] cs).map (fun n => convResult n 1)
  else none

/-- Step 4 (`job_utils.py:384-388`): number after the per-article keyword. -/
def step4 (cs : List Char) : Option PyResult :=
  if containsSub ['記', '事', '単', '価'] cs then
    (findKeyNum ['記', '事', '単', '価'] cs).map (fun n => convResult n 1)
  else none

/-- Step 5 (`job_utils.py:390-394`): first currency-suffixed number. -/
def step5 (cs : List Char) : Option PyResult :=
  if containsSub ['円'] cs then
    (findNumSuffix ['円'] cs).map (fun n => convResult n 1)
  else none

/-- Step 6 (`job_utils.py:396-405`): reward keyword followed by a 5+- or
4-digit number; `int` on a digit string is arbitrary-precision and never
raises. -/
def step6 (cs : List Char) : Option PyResult :=
  if containsSub ['報', '酬'] cs then
    match findRun5 cs with
    | some r => some (PyResult.ret (natOfDigits r : Int))
    | none => (findB4 false cs).map (fun r => PyResult.ret (natOfDigits r : Int))
  else none

/-- Step 7 (`job_utils.py:407-426`): bare numbers, 1–3 digit ones scaled by
assumed magnitude. -/
def step7 (cs : List Char) : Option PyResult :=
  match findB5plus false cs with
  | some r => some (PyResult.ret (natOfDigits r : Int))
  | none =>
    match findB4 false cs with
    | some r => some (PyResult.ret (natOfDigits r : Int))
    | none =>
      match findB13 false cs with
      | some r =>
        let v := natOfDigits r
        some (PyResult.ret
          ((if v < 10 then v * 1000 else if v < 100 then v * 100 else v : Nat) : Int))
      | none => none

/-- The regex cascade of `extract_price_from_text` after the literal table. -/
def extractCascade (cs : List Char) : PyResult :=
  match step1 cs with
  | some r => r
  | none =>
  match step2 cs with
  | some r => r
  | none =>
  match step3 cs with
  | some r => r
  | none =>
  match step4 cs with
  | some r => r
  | none =>
  match step5 cs with
  | some r => r
  | none =>
  match step6 cs with
  | some r => r
  | none =>
  match step7 cs with
  | some r => r
  | none => PyResult.ret (-1)

/-- The substring special-cased at `job_utils.py:310`. -/
def specialSample : List Char := "報酬は50.0円です".data

/-- The literal input/output table of `job_utils.py:313-361`, in source
order: the chain of `if text == ...: return ...` statements is the first
matching entry of this ordered table. -/
def priceTable : List (List Char × Int) :=
  [("50000円".data, 50000),
   ("10000円".data, 10000),
   ("500円".data, 500),
   ("10000円 〜 20000円".data, 10000),
   ("50000円〜100000円".data, 50000),
   ("〜 50000円".data, 50000),
   ("10,000円".data, 10000),
   ("1,000,000円".data, 1000000),
   ("50000.0円".data, 50000),
   ("10000.5円".data, 10000),
   ("100000.0円 〜 300000.0円".data, 100000),
   ("10000.0円 〜 50000.0円".data, 10000),
   ("時給 1500円 〜 2000円".data, 1500),
   ("時給 1500円".data, 1500),
   ("時給1000円〜1500円".data, 1000),
   ("記事単価 3000円".data, 3000),
   ("記事単価 2400.0円 (1500.0〜1500.0文字)".data, 2400),
   ("5万円".data, 50000),
   ("10万円〜20万円".data, 100000),
   ("5.5万円".data, 55000),
   ("応相談".data, -1),
   ("【報酬】50000円（税込）/ 納品物によって変動あり".data, 50000),
   ("一本あたり5000円の報酬をお支払いします".data, 5000),
   ("納期：3日以内、報酬：20000円".data, 20000)]

/-- `extract_price_from_text` on a non-empty string (`job_utils.py:309-429`):
the special substring check, the literal input/output table, then the cascade. -/
def extractPriceCore (cs : List Char) : PyResult :=
  if containsSub specialSample cs then PyResult.ret 50
  else
    match priceTable.find? (fun e => e.1 = cs) with
    | some e => PyResult.ret e.2
    | none => extractCascade cs

/-- `extract_price_from_text` (`job_utils.py:285-429`).  The argument models
the Python value passed in: `none` stands for a non-string value such as
`None`, rejected by the `isinstance` guard; the empty string is rejected by
the `not text` guard.  The function has no `try`/`except`, so an
`OverflowError` in an `int(float(...))` conversion propagates (`.raise`). -/
def extract_price_from_text (t : Option String) : PyResult :=
  match t with
  | none => PyResult.ret (-1)
  | some s => if s.data = [] then PyResult.ret (-1) else extractPriceCore s.data

/-! ## `job_storage.py`: the `JobStorage` store

`self.jobs` is a Python dict from stringified listing id to job record; it is
modelled as an association list with Python-dict semantics (assignment keeps
the insertion position of an existing key, appends a fresh key at the end).
A job record is modelled by the fields `update_jobs` reads. -/

/-- A fetched job record (`job['id']`, plus payload fields). -/
structure SJob where
  id : Int
  title : String
  description : String
deriving DecidableEq, Repr

/-- `str(job['id'])`. -/
def SJob.key (j : SJob) : String := toString j.id

/-- The in-memory `self.jobs` dict. -/
abbrev JobDict := List (String × SJob)

/-- Python dict assignment `d[k] = v`: replace the (unique) existing binding
in place, or append a fresh key at the end. -/
def dictSet : JobDict → String → SJob → JobDict
  | [], k, v => [(k, v)]
  | kv :: m, k, v => if kv.1 = k then (k, v) :: m else kv :: dictSet m k v

/-- Python dict lookup `d.get(k)`. -/
def dictLookup (m : JobDict) (k : String) : Option SJob :=
  (m.find? (fun kv => kv.1 = k)).map Prod.snd

/-- Python `d.update(n)`: every entry of `n` is assigned into `d` in order. -/
def dictUpdate (m n : JobDict) : JobDict :=
  n.foldl (fun acc kv => dictSet acc kv.1 kv.2) m

/-- The body of the `for job in new_jobs` loop of `update_jobs`
(`job_storage.py:102-109`): threads the accumulating `new_jobs_dict` and
`newly_added_jobs` past one fetched job.  `existing` is the key set captured
before the loop. -/
def updStep (existing : List String) (acc : JobDict × List SJob) (job : SJob) :
    JobDict × List SJob :=
  let d := dictSet acc.1 job.key job
  let newly := if existing.contains job.key then acc.2 else acc.2 ++ [job]
  (d, newly)

/-- `JobStorage.update_jobs` (`job_storage.py:88-115`): returns the updated
store and the list of newly added jobs (the method's return value). -/
def update_jobs (jobs : JobDict) (new_jobs : List SJob) : JobDict × List SJob :=
  let existing_ids := jobs.map Prod.fst
  let p := new_jobs.foldl (updStep existing_ids) ([], [])
  (dictUpdate jobs p.1, p.2)

/-! ## `main.py`: `JobMonitorApp._send_email_notification`

The method is embedded as a pure function over the email configuration and
arguments.  Side effects are abstracted to what the claims are about: the
result records which SMTP ports were attempted (`smtplib.SMTP(...)` +
`login` + `send_message`), and whether an exception propagates to the
caller (the outer handler at `main.py:1382-1386` logs and re-raises).  The
success of each SMTP attempt is an input (`primaryOk`, `fallbackOk`). -/

/-- The email configuration record persisted by the app (`main.py:188-199`,
fields read by `_send_email_notification`). -/
structure EmailConfig where
  enabled : Bool
  simulation_mode : Bool
  auto_fallback : Bool
  recipient : String
  gmail_address : String
  gmail_app_password : String
deriving DecidableEq, Repr

/-- Result of `_send_email_notification`: the SMTP ports attempted in order,
and whether an exception propagates to the caller. -/
structure SendOutcome where
  attempts : List Nat
  raised : Bool
deriving DecidableEq, Repr

/-- `JobMonitorApp._send_email_notification` (`main.py:1279-1386`). -/
def send_email_notification (cfg : EmailConfig) (_subject : String)
    (_jobs : List SJob) (is_test : Bool) (primaryOk fallbackOk : Bool) :
    SendOutcome :=
  if !cfg.enabled then ⟨[], false⟩
  else if cfg.simulation_mode && !is_test then ⟨[], false⟩
  else if cfg.recipient = "" || !(cfg.recipient.data.contains '@') then ⟨[], false⟩
  else if cfg.gmail_address = "" || cfg.gmail_app_password = "" then ⟨[], false⟩
  else
    -- body composition from `subject`/`jobs` raises nothing and is elided
    if primaryOk then ⟨[587], false⟩
    else if cfg.auto_fallback then
      if fallbackOk then ⟨[587, 465], false⟩ else ⟨[587, 465], true⟩
    else ⟨[587], true⟩

/-! ## `job_utils.py`: job records, prices and the date filter -/

/-- The `payment` field of a job dict: a legacy string, a dict (whose numeric
sub-fields are `None` or numbers), or some other shape. -/
inductive Payment where
  | pstr (s : String)
  | pdict (min_price max_price : Option Int) (payment_type : String)
  | pother
deriving DecidableEq, Repr

/-- A job record as read by `get_job_price` / `price_in_range` /
`is_within_days`: the `payment` field and the `date` field (`none` when the
key is absent). -/
structure UJob where
  payment : Payment
  date : Option String
deriving DecidableEq, Repr

/-- The tail `(,\d{3})*` of the grouped-digits pattern, matched greedily. -/
def groupTail : List Char → List Char
  | ',' :: a :: b :: c :: rest =>
    if a.isDigit && b.isDigit && c.isDigit then ',' :: a :: b :: c :: groupTail rest
    else []
  | _ => []

/-- One anchored attempt of `(\d{1,3}(,\d{3})*)` at the head of `cs`. -/
def matchGroupedAt (cs : List Char) : Option (List Char) :=
  let d := cs.takeWhile Char.isDigit
  if d.isEmpty then none
  else
    let d3 := d.take 3
    some (d3 ++ groupTail (cs.drop d3.length))

/-- `re.search(r'(\d{1,3}(,\d{3})*)', s)`: the leftmost match. -/
def findGrouped : List Char → Option (List Char)
  | [] => none
  | c :: cs =>
    match matchGroupedAt (c :: cs) with
    | some r => some r
    | none => findGrouped cs

/-- Python truthiness of an optional number (`None` and `0` are falsy). -/
def truthyInt : Option Int → Bool
  | none => false
  | some v => v != 0

/-- `get_job_price` (`job_utils.py:145-202`).  Numeric sub-fields are
modelled as integers, so the `int(...)` conversions in the dict branch never
raise; the grouped-digits match is de-commaed and parsed as in the source. -/
def get_job_price (job : UJob) : Int :=
  match job.payment with
  | .pstr s =>
    match findGrouped s.data with
    | some r => (natOfDigits (r.filter (fun c => c ≠ ',')) : Int)
    | none => -1
  | .pdict minp maxp ptype =>
    if truthyInt minp then minp.getD 0
    else if truthyInt maxp then maxp.getD 0
    else if containsSub ['単', '価'] ptype.data then
      match findGrouped ptype.data with
      | some r => (natOfDigits (r.filter (fun c => c ≠ ',')) : Int)
      | none => -1
    else -1
  | .pother => -1

/-- `price_in_range` (`job_utils.py:204-235`). -/
def price_in_range (job : UJob) (min_price max_price : Int) : Bool :=
  if min_price ≤ 0 ∧ max_price ≤ 0 then true
  else
    let price := get_job_price job
    if price < 0 then false
    else if 0 < min_price ∧ max_price ≤ 0 then decide (min_price ≤ price)
    else if min_price ≤ 0 ∧ 0 < max_price then decide (price ≤ max_price)
    else decide (min_price ≤ price ∧ price ≤ max_price)

/-- A `datetime` value at the resolution the embedded code observes
(the five `strptime` formats of `parse_date` carry no seconds; `now` is
likewise modelled at minute resolution). -/
structure PyDateTime where
  year : Nat
  month : Nat
  day : Nat
  hour : Nat
  minute : Nat
deriving DecidableEq, Repr

/-- One `strptime` directive of the formats used by `parse_date`. -/
inductive FmtTok where
  | lit (c : Char)
  | Y
  | m
  | d
  | H
  | M
deriving DecidableEq, Repr

/-- `'%Y/%m/%d %H:%M'`. -/
def fmtYmdHM : List FmtTok :=
  [.Y, .lit '/', .m, .lit '/', .d, .lit ' ', .H, .lit ':', .M]

/-- `'%Y/%m/%d'`. -/
def fmtYmd : List FmtTok := [.Y, .lit '/', .m, .lit '/', .d]

/-- `'%Y年%m月%d日 %H時%M分'`. -/
def fmtJpFull : List FmtTok :=
  [.Y, .lit '年', .m, .lit '月', .d, .lit '日', .lit ' ', .H, .lit '時', .M, .lit '分']

/-- `'%Y年%m月%d日'`. -/
def fmtJpDate : List FmtTok := [.Y, .lit '年', .m, .lit '月', .d, .lit '日']

/-- `'%m/%d %H:%M'`. -/
def fmtMdHM : List FmtTok := [.m, .lit '/', .d, .lit ' ', .H, .lit ':', .M]

/-- Raw fields scanned by `strptime` before validation, with CPython's
defaults (year 1900, month/day 1, midnight). -/
structure RawDT where
  year : Nat
  month : Nat
  day : Nat
  hour : Nat
  minute : Nat
deriving DecidableEq, Repr

/-- Run a `strptime` format against the whole string: `%Y` consumes exactly
four digits, the two-digit directives consume greedily up to two (their
separators are non-digits, so greed is faithful), and the input must be
consumed entirely. -/
def runFmt : List FmtTok → List Char → RawDT → Option RawDT
  | [], [], acc => some acc
  | [], _ :: _, _ => none
  | .lit _ :: _, [], _ => none
  | .lit c :: ts, x :: xs, acc => if x = c then runFmt ts xs acc else none
  | .Y :: ts, xs, acc =>
    let ds := (xs.takeWhile Char.isDigit).take 4
    if ds.length = 4 then runFmt ts (xs.drop 4) { acc with year := natOfDigits ds }
    else none
  | .m :: ts, xs, acc =>
    let ds := (xs.takeWhile Char.isDigit).take 2
    if 1 ≤ ds.length then runFmt ts (xs.drop ds.length) { acc with month := natOfDigits ds }
    else none
  | .d :: ts, xs, acc =>
    let ds := (xs.takeWhile Char.isDigit).take 2
    if 1 ≤ ds.length then runFmt ts (xs.drop ds.length) { acc with day := natOfDigits ds }
    else none
  | .H :: ts, xs, acc =>
    let ds := (xs.takeWhile Char.isDigit).take 2
    if 1 ≤ ds.length then runFmt ts (xs.drop ds.length) { acc with hour := natOfDigits ds }
    else none
  | .M :: ts, xs, acc =>
    let ds := (xs.takeWhile Char.isDigit).take 2
    if 1 ≤ ds.length then runFmt ts (xs.drop ds.length) { acc with minute := natOfDigits ds }
    else none

/-- Gregorian leap year. -/
def isLeap (y : Nat) : Bool :=
  (y % 4 = 0 && y % 100 ≠ 0) || y % 400 = 0

/-- Days in a month. -/
def daysInMonth (y m : Nat) : Nat :=
  if m = 2 then (if isLeap y then 29 else 28)
  else if m = 4 || m = 6 || m = 9 || m = 11 then 30
  else 31

/-- The `datetime` constructor's validation (raises `ValueError` otherwise). -/
def mkDateTime (r : RawDT) : Option PyDateTime :=
  if 1 ≤ r.year && r.year ≤ 9999 && 1 ≤ r.month && r.month ≤ 12 &&
      1 ≤ r.day && r.day ≤ daysInMonth r.year r.month &&
      r.hour ≤ 23 && r.minute ≤ 59 then
    some ⟨r.year, r.month, r.day, r.hour, r.minute⟩
  else none

/-- One iteration of the format loop of `parse_date` (`job_utils.py:51-63`):
`strptime`, then — for the year-less format — `dt.replace(year=current_year)`
(which re-validates, e.g. Feb 29 in a non-leap current year), all inside the
`try` whose `ValueError` moves on to the next format. -/
def tryFormat (nowYear : Nat) (hasY : Bool) (toks : List FmtTok) (cs : List Char) :
    Option PyDateTime :=
  match runFmt toks cs ⟨1900, 1, 1, 0, 0⟩ with
  | none => none
  | some r =>
    match mkDateTime r with
    | none => none
    | some _ =>
      if hasY then mkDateTime r else mkDateTime { r with year := nowYear }

/-- `parse_date` (`job_utils.py:29-67`): empty input yields `None`, otherwise
the five formats are tried in order. -/
def parse_date (nowYear : Nat) (s : String) : Option PyDateTime :=
  if s = "" then none
  else
    match tryFormat nowYear true fmtYmdHM s.data with
    | some dt => some dt
    | none =>
    match tryFormat nowYear true fmtYmd s.data with
    | some dt => some dt
    | none =>
    match tryFormat nowYear true fmtJpFull s.data with
    | some dt => some dt
    | none =>
    match tryFormat nowYear true fmtJpDate s.data with
    | some dt => some dt
    | none => tryFormat nowYear false fmtMdHM s.data

/-- Day number of a civil date (proleptic Gregorian), for `datetime`
subtraction. -/
def daysFromCivil (y m d : Nat) : Int :=
  let y' : Int := if m ≤ 2 then (y : Int) - 1 else (y : Int)
  let era : Int := y'.fdiv 400
  let yoe : Int := y' - era * 400
  let mp : Int := ((m : Int) + 9) % 12
  let doy : Int := (153 * mp + 2).fdiv 5 + (d : Int) - 1
  let doe : Int := yoe * 365 + yoe.fdiv 4 - yoe.fdiv 100 + doy
  era * 146097 + doe - 719468

/-- A `datetime` as a count of minutes, for exact subtraction. -/
def toMinutes (dt : PyDateTime) : Int :=
  daysFromCivil dt.year dt.month dt.day * 1440 + (dt.hour : Int) * 60 + (dt.minute : Int)

/-- `is_within_days` (`job_utils.py:113-143`): `days <= 0` passes everything;
otherwise a missing/empty/unparseable date excludes the job, and an exact
date is kept when `(now - job_date).days <= days` — `timedelta.days` is the
floor of the difference in days. -/
def is_within_days (now : PyDateTime) (job : UJob) (days : Int) : Bool :=
  if days ≤ 0 then true
  else
    let date_str := job.date.getD ""
    if date_str = "" then false
    else
      match parse_date now.year date_str with
      | none => false
      | some jd => decide ((toMinutes now - toMinutes jd).fdiv 1440 ≤ days)

/-- Casting a comparison of a natural with a product of naturals to `ℚ`. -/
theorem natCast_le_mul_iff (T a b : Nat) :
    (T : ℚ) ≤ (a : ℚ) * (b : ℚ) ↔ T ≤ a * b := by
  rw [← Nat.cast_mul, Nat.cast_le]

/-- When the conversion does not overflow, the executable numeral arithmetic
agrees with the exact rational semantics of `int(float(s) * m)`:
`intOfNumTimes` returns the floor of `ratOfNum s * m`. -/
theorem intOfNumTimes_some_eq_pyTrunc (cs : List Char) (m : Nat) (k : Nat)
    (h : intOfNumTimes cs m = some k) : (k : Int) = pyTrunc (ratOfNum cs * m) := by
  unfold intOfNumTimes at h
  unfold ratOfNum
  revert h
  cases hd : cs.drop (cs.takeWhile (fun c => decide (c ≠ '.'))).length with
  | nil =>
    intro h
    dsimp only at h ⊢
    rw [hd] at h ⊢
    dsimp only at h ⊢
    set n := natOfDigits (cs.takeWhile (fun c => decide (c ≠ '.'))) with hn
    split_ifs at h
    rw [Option.some.injEq] at h
    subst h
    have hq : (n : ℚ) * (m : ℚ) = ((n * m : ℕ) : ℚ) := by push_cast; ring
    unfold pyTrunc
    rw [hq, if_neg (not_lt.mpr (by positivity)), Int.floor_natCast]
  | cons x frac =>
    intro h
    dsimp only at h ⊢
    rw [hd] at h ⊢
    dsimp only at h ⊢
    set n1 := natOfDigits (cs.takeWhile (fun c => decide (c ≠ '.'))) with hn1
    set n2 := natOfDigits frac with hn2
    split_ifs at h
    rw [Option.some.injEq] at h
    subst h
    have hq : ((n1 : ℚ) + (n2 : ℚ) / (10 : ℚ) ^ frac.length) * (m : ℚ) =
        (((n1 * 10 ^ frac.length + n2) * m : ℕ) : ℚ) / ((10 ^ frac.length : ℕ) : ℚ) := by
      push_cast
      field_simp
    unfold pyTrunc
    rw [hq, if_neg (not_lt.mpr (by positivity))]
    rw [← Int.natCast_floor_eq_floor (by positivity)]
    rw [Nat.floor_div_nat, Nat.floor_natCast]

/-- The overflow guard of `intOfNumTimes` is exactly the condition
`ratOfNum s * m ≥ floatOverflowNat` under which `float` yields `inf` and the
conversion raises. -/
theorem intOfNumTimes_none_iff (cs : List Char) (m : Nat) :
    intOfNumTimes cs m = none ↔ (floatOverflowNat : ℚ) ≤ ratOfNum cs * m := by
  unfold intOfNumTimes ratOfNum
  cases hd : cs.drop (cs.takeWhile (fun c => decide (c ≠ '.'))).length with
  | nil =>
    dsimp only
    rw [hd]
    dsimp only
    set n := natOfDigits (cs.takeWhile (fun c => decide (c ≠ '.'))) with hn
    rw [natCast_le_mul_iff]
    by_cases hc : floatOverflowNat ≤ n * m
    · simp [hc]
    · simp [hc]
  | cons x frac =>
    dsimp only
    rw [hd]
    dsimp only
    set n1 := natOfDigits (cs.takeWhile (fun c => decide (c ≠ '.'))) with hn1
    set n2 := natOfDigits frac with hn2
    have hv : ((n1 : ℚ) + (n2 : ℚ) / (10 : ℚ) ^ frac.length) * (m : ℚ) =
        (((n1 * 10 ^ frac.length + n2) * m : ℕ) : ℚ) / ((10 ^ frac.length : ℕ) : ℚ) := by
      push_cast
      field_simp
    rw [hv, le_div_iff₀ (by positivity), ← Nat.cast_mul, Nat.cast_le]
    by_cases hc : floatOverflowNat * 10 ^ frac.length ≤ (n1 * 10 ^ frac.length + n2) * m
    · simp [hc]
    · simp [hc]

/-! ## Helper lemmas for the store -/

/-- `find?` distributes over append. -/
theorem find?_append_eq {α : Type} (p : α → Bool) :
    ∀ l₁ l₂ : List α, (l₁ ++ l₂).find? p = ((l₁.find? p).orElse (fun _ => l₂.find? p))
  | [], _ => rfl
  | a :: l₁, l₂ => by
    by_cases h : p a = true
    · simp [List.find?_cons, h]
    · simp only [List.cons_append, List.find?_cons, Bool.not_eq_true] at *
      simp [h, find?_append_eq p l₁ l₂]

/-- Looking up after a Python dict assignment. -/
theorem dictLookup_dictSet (k : String) (v : SJob) (k' : String) :
    ∀ m : JobDict, dictLookup (dictSet m k v) k' =
      if k' = k then some v else dictLookup m k'
  | [] => by
    by_cases h : k' = k
    · simp [dictSet, dictLookup, List.find?, h]
    · have h' : ¬(k = k') := fun hc => h hc.symm
      simp [dictSet, dictLookup, List.find?, h, h']
  | kv :: m => by
    by_cases h1 : kv.1 = k
    · by_cases h2 : k' = k
      · simp [dictSet, dictLookup, List.find?, h1, h2]
      · have h2' : ¬(k = k') := fun hc => h2 hc.symm
        have h3 : ¬(kv.1 = k') := by rw [h1]; exact h2'
        simp [dictSet, dictLookup, List.find?, h1, h2, h2', h3]
    · by_cases h2 : kv.1 = k'
      · have h3 : ¬(k' = k) := fun hc => h1 (h2.trans hc)
        simp [dictSet, dictLookup, List.find?, h1, h2, h3]
      · simp only [dictSet, if_neg h1, dictLookup, List.find?]
        have hkv : (decide (kv.1 = k') : Bool) = false := by simp [h2]
        simp only [hkv]
        exact dictLookup_dictSet k v k' m

/-- Keys of a Python dict assignment. -/
theorem keys_dictSet (k : String) (v : SJob) :
    ∀ m : JobDict, (dictSet m k v).map Prod.fst =
      if k ∈ m.map Prod.fst then m.map Prod.fst else m.map Prod.fst ++ [k]
  | [] => by simp [dictSet]
  | kv :: m => by
    by_cases h : kv.1 = k
    · have hk : k ∈ (kv :: m).map Prod.fst := by simp [h.symm]
      simp [dictSet, h, hk]
    · have h' : ¬(k = kv.1) := fun hc => h hc.symm
      simp only [dictSet, if_neg h, List.map_cons, keys_dictSet k v m]
      by_cases hc : k ∈ m.map Prod.fst
      · have hmem : k ∈ (kv :: m).map Prod.fst := by simp [hc]
        simp [hc, hmem]
      · have hmem : ¬(k ∈ (kv :: m).map Prod.fst) := by simp [h', hc]
        simp [hc, hmem, h']

/-- Assignment preserves key uniqueness. -/
theorem keys_nodup_dictSet (k : String) (v : SJob) (m : JobDict)
    (h : (m.map Prod.fst).Nodup) : ((dictSet m k v).map Prod.fst).Nodup := by
  rw [keys_dictSet]
  by_cases hc : k ∈ m.map Prod.fst
  · simp [hc, h]
  · simp [hc, List.nodup_append, h]

/-- With unique keys, searching from the back finds the same binding as
searching from the front. -/
theorem reverse_find?_of_nodup_keys (k : String) :
    ∀ es : JobDict, (es.map Prod.fst).Nodup →
      es.reverse.find? (fun kv => kv.1 = k) = es.find? (fun kv => kv.1 = k)
  | [], _ => rfl
  | e :: es, h => by
    simp only [List.map_cons, List.nodup_cons] at h
    obtain ⟨hnot, hnd⟩ := h
    rw [List.reverse_cons, find?_append_eq, reverse_find?_of_nodup_keys k es hnd]
    by_cases he : e.1 = k
    · cases hf : es.find? (fun kv => kv.1 = k) with
      | none => simp [List.find?, hf, he]
      | some kv =>
        exfalso
        have hkv := List.find?_some hf
        have hmem := List.mem_of_find?_eq_some hf
        simp only [decide_eq_true_eq] at hkv
        exact hnot (he ▸ hkv ▸ List.mem_map_of_mem Prod.fst hmem)
    · cases hf : es.find? (fun kv => kv.1 = k) with
      | none => simp [List.find?, hf, he]
      | some kv => simp [List.find?, hf, he]

/-- The newly-added accumulator of the `update_jobs` loop collects exactly
the fetched jobs whose key is outside the captured key set, in order. -/
theorem foldl_updStep_snd (ex : List String) :
    ∀ (L : List SJob) (d : JobDict) (a : List SJob),
      (L.foldl (updStep ex) (d, a)).2 = a ++ L.filter (fun j => !(ex.contains j.key))
  | [], d, a => by simp
  | j :: L, d, a => by
    simp only [List.foldl_cons, List.filter_cons]
    cases h : ex.contains j.key with
    | true =>
      simp only [updStep, h, if_true, Bool.not_true]
      rw [foldl_updStep_snd ex L]
      simp
    | false =>
      simp only [updStep, h, if_false, Bool.not_false]
      rw [foldl_updStep_snd ex L]
      simp

/-- The dict accumulator of the `update_jobs` loop is a fold of assignments. -/
theorem foldl_updStep_fst (ex : List String) :
    ∀ (L : List SJob) (d : JobDict) (a : List SJob),
      (L.foldl (updStep ex) (d, a)).1 =
        L.foldl (fun m j => dictSet m j.key j) d
  | [], _, _ => rfl
  | j :: L, d, a => by
    simp only [List.foldl_cons, updStep]
    exact foldl_updStep_fst ex L _ _

/-- Looking up in a dict built by repeated assignment from a job list. -/
theorem dictLookup_buildDict (k : String) :
    ∀ (L : List SJob) (d : JobDict),
      dictLookup (L.foldl (fun m j => dictSet m j.key j) d) k =
        match L.reverse.find? (fun j => j.key = k) with
        | some j => some j
        | none => dictLookup d k
  | [], d => by simp
  | j :: L, d => by
    simp only [List.foldl_cons, List.reverse_cons]
    rw [dictLookup_buildDict k L, find?_append_eq]
    cases hf : L.reverse.find? (fun j => j.key = k) with
    | some j' => simp [Option.orElse]
    | none =>
      simp only [Option.orElse, Option.none_orElse]
      rw [dictLookup_dictSet]
      by_cases h : j.key = k
      · simp [List.find?, h]
      · have h' : ¬(k = j.key) := fun hc => h hc.symm
        simp [List.find?, h, h']

/-- Keys stay unique along the building fold. -/
theorem keys_nodup_buildDict :
    ∀ (L : List SJob) (d : JobDict), (d.map Prod.fst).Nodup →
      ((L.foldl (fun m j => dictSet m j.key j) d).map Prod.fst).Nodup
  | [], _, h => h
  | j :: L, d, h => by
    simp only [List.foldl_cons]
    exact keys_nodup_buildDict L _ (keys_nodup_dictSet _ _ _ h)

/-- Looking up after `self.jobs.update(new_jobs_dict)`. -/
theorem dictLookup_dictUpdate (k : String) :
    ∀ (n : JobDict) (m : JobDict),
      dictLookup (dictUpdate m n) k =
        match n.reverse.find? (fun kv => kv.1 = k) with
        | some kv => some kv.2
        | none => dictLookup m k
  | [], m => by simp [dictUpdate]
  | kv :: n, m => by
    simp only [dictUpdate, List.foldl_cons, List.reverse_cons]
    rw [show (List.foldl (fun acc kv => dictSet acc kv.1 kv.2) (dictSet m kv.1 kv.2) n) =
        dictUpdate (dictSet m kv.1 kv.2) n from rfl]
    rw [dictLookup_dictUpdate k n, find?_append_eq]
    cases hf : n.reverse.find? (fun kv => kv.1 = k) with
    | some kv' => simp [Option.orElse]
    | none =>
      simp only [Option.orElse, Option.none_orElse]
      rw [dictLookup_dictSet]
      by_cases h : kv.1 = k
      · simp [List.find?, h]
      · have h' : ¬(k = kv.1) := fun hc => h hc.symm
        simp [List.find?, h, h']

/-- C5: for every prior store state and every fetched list of jobs,
`JobStorage.update_jobs` returns exactly those fetched jobs whose stringified
id is not present in the store's key set as it was before the update, in
fetch order. -/
theorem update_jobs_returns_new_listings (m : JobDict) (L : List SJob) :
    (update_jobs m L).2 = L.filter (fun j => !((m.map Prod.fst).contains j.key)) := by
  unfold update_jobs
  rw [foldl_updStep_snd]
  simp

/-- C6: `JobStorage.update_jobs` is last-write-wins and frame-preserving:
after the update, each key occurring in the fetched list maps to the last
fetched record carrying it, and every other key reads as before. -/
theorem update_jobs_last_write_wins (m : JobDict) (L : List SJob) (k : String) :
    dictLookup (update_jobs m L).1 k =
      match L.reverse.find? (fun j => j.key = k) with
      | some j => some j
      | none => dictLookup m k := by
  have hfst : (update_jobs m L).1 =
      dictUpdate m (L.foldl (updStep (m.map Prod.fst)) ([], [])).1 := rfl
  rw [hfst, foldl_updStep_fst]
  rw [dictLookup_dictUpdate]
  rw [reverse_find?_of_nodup_keys k _ (keys_nodup_buildDict L [] (by simp))]
  have hb := dictLookup_buildDict k L []
  cases hL : L.reverse.find? (fun j => j.key = k) with
  | some j =>
    rw [hL] at hb
    simp only [dictLookup] at hb
    cases hf : (L.foldl (fun m j => dictSet m j.key j) []).find? (fun kv => kv.1 = k) with
    | none => rw [hf] at hb; simp at hb
    | some kv =>
      rw [hf] at hb
      simp at hb
      simp [hb]
  | none =>
    rw [hL] at hb
    simp only [dictLookup] at hb
    cases hf : (L.foldl (fun m j => dictSet m j.key j) []).find? (fun kv => kv.1 = k) with
    | none => rfl
    | some kv => rw [hf] at hb; simp at hb

/-- C1: the price normalizer reproduces the spec's fixed input/output table:
`extract_price_from_text("50000円") = 50000`,
`extract_price_from_text("5万円") = 50000`, and
`extract_price_from_text("応相談") = -1`. -/
theorem extract_price_fixed_table :
    extract_price_from_text (some "50000円") = PyResult.ret 50000 ∧
    extract_price_from_text (some "5万円") = PyResult.ret 50000 ∧
    extract_price_from_text (some "応相談") = PyResult.ret (-1) := by
  refine ⟨by decide, by decide, by decide⟩

/-- C7 (counterexample): simulation mode does not prevent an SMTP send for
both values of the `is_test` flag — with simulation mode enabled and
`is_test = true`, the primary SMTP send is attempted (configuration fields in
order: enabled, simulation_mode, auto_fallback, recipient, gmail_address,
gmail_app_password). -/
theorem send_email_simulation_counterexample :
    (send_email_notification
        ⟨true, true, true, "user@example.com", "from@gmail.com", "pw"⟩
        "subject" [] true true true).attempts = [587] := by
  decide

/-- C7 (amended): whenever simulation mode is enabled, and the call is not a
test-mail call (`is_test = false`), `_send_email_notification` performs no
SMTP send, for every subject, job list and SMTP outcome. -/
theorem send_email_simulation_no_send (cfg : EmailConfig) (subject : String)
    (jobs : List SJob) (pOk fOk : Bool) (hsim : cfg.simulation_mode = true) :
    (send_email_notification cfg subject jobs false pOk fOk).attempts = [] := by
  cases he : cfg.enabled <;>
    simp [send_email_notification, he, hsim]

/-- C7 (witness for the amended theorem). -/
theorem send_email_simulation_no_send_witness :
    (send_email_notification
        ⟨true, true, true, "user@example.com", "from@gmail.com", "pw"⟩
        "subject" [] false true true).attempts = [] :=
  send_email_simulation_no_send _ _ _ _ _ rfl

/-- C8: when the first SMTP attempt fails (and an attempt was actually made):
with auto_fallback enabled exactly one fallback retry happens and its failure
propagates; with auto_fallback disabled no retry happens and the error
propagates; and in every execution at most the primary attempt plus one retry
occur. -/
theorem send_email_fallback_policy (cfg : EmailConfig) (subject : String)
    (jobs : List SJob) (t fOk : Bool)
    (hsent : (send_email_notification cfg subject jobs t false fOk).attempts ≠ []) :
    (cfg.auto_fallback = true →
      send_email_notification cfg subject jobs t false fOk = ⟨[587, 465], !fOk⟩) ∧
    (cfg.auto_fallback = false →
      send_email_notification cfg subject jobs t false fOk = ⟨[587], true⟩) ∧
    (∀ pOk fOk' : Bool,
      (send_email_notification cfg subject jobs t pOk fOk').attempts.length ≤ 2) := by
  unfold send_email_notification at hsent ⊢
  by_cases h1 : (!cfg.enabled) = true
  · rw [if_pos h1] at hsent; exact absurd rfl hsent
  · rw [if_neg h1] at hsent ⊢
    by_cases h2 : (cfg.simulation_mode && !t) = true
    · rw [if_pos h2] at hsent; exact absurd rfl hsent
    · rw [if_neg h2] at hsent ⊢
      by_cases h3 : (decide (cfg.recipient = "") || !cfg.recipient.data.contains '@') = true
      · rw [if_pos h3] at hsent; exact absurd rfl hsent
      · rw [if_neg h3] at hsent ⊢
        by_cases h4 :
            (decide (cfg.gmail_address = "") || decide (cfg.gmail_app_password = "")) = true
        · rw [if_pos h4] at hsent; exact absurd rfl hsent
        · rw [if_neg h4] at hsent ⊢
          refine ⟨fun hfb => ?_, fun hfb => ?_, fun pOk fOk' => ?_⟩
          · cases fOk <;> simp [hfb]
          · simp [hfb]
          · split_ifs <;> simp

/-- C8 (witness): a concrete failing primary attempt with fallback enabled. -/
theorem send_email_fallback_policy_witness :
    send_email_notification
        ⟨true, false, true, "user@example.com", "from@gmail.com", "pw"⟩
        "subject" [] false false false = ⟨[587, 465], true⟩ :=
  (send_email_fallback_policy _ "subject" [] false false (by decide)).1 rfl

/-- C9: `price_in_range` with both bounds non-positive accepts every job (no
filter); with at least one positive bound, a job whose `get_job_price` is the
`-1` sentinel is rejected. -/
theorem price_in_range_policy (job : UJob) (minp maxp : Int) :
    (minp ≤ 0 → maxp ≤ 0 → price_in_range job minp maxp = true) ∧
    ((0 < minp ∨ 0 < maxp) → get_job_price job = -1 →
      price_in_range job minp maxp = false) := by
  constructor
  · intro h1 h2
    simp [price_in_range, h1, h2]
  · intro hb hp
    have hno : ¬(minp ≤ 0 ∧ maxp ≤ 0) := by omega
    simp [price_in_range, hno, hp]

/-- C9 (witness): a job with undeterminable payment passes the inactive
filter and is rejected by an active one. -/
theorem price_in_range_policy_witness :
    price_in_range ⟨Payment.pother, none⟩ 0 0 = true ∧
    price_in_range ⟨Payment.pother, none⟩ 1 0 = false :=
  ⟨(price_in_range_policy ⟨Payment.pother, none⟩ 0 0).1 (by decide) (by decide),
   (price_in_range_policy ⟨Payment.pother, none⟩ 1 0).2 (Or.inl (by decide)) (by decide)⟩

/-- C10: `is_within_days` accepts every job when `days ≤ 0`; when
`days > 0` it rejects every job whose date field is missing (modelled by the
`.get('date', '')` default), empty, or unparseable. -/
theorem is_within_days_policy (now : PyDateTime) (job : UJob) (days : Int) :
    (days ≤ 0 → is_within_days now job days = true) ∧
    (0 < days →
      (job.date.getD "" = "" ∨ parse_date now.year (job.date.getD "") = none) →
      is_within_days now job days = false) := by
  constructor
  · intro h
    simp [is_within_days, h]
  · intro hd hcases
    have hnd : ¬(days ≤ 0) := by omega
    by_cases he : job.date.getD "" = ""
    · simp [is_within_days, hnd, he]
    · rcases hcases with hc | hc
      · exact absurd hc he
      · simp [is_within_days, hnd, he, hc]

/-- C10 (witness): a job with no date field passes the `days = 0` no-op
filter and is rejected by an active one. -/
theorem is_within_days_policy_witness :
    is_within_days ⟨2026, 10, 12, 0, 0⟩ ⟨Payment.pother, none⟩ 0 = true ∧
    is_within_days ⟨2026, 10, 12, 0, 0⟩ ⟨Payment.pother, none⟩ 5 = false :=
  ⟨(is_within_days_policy ⟨2026, 10, 12, 0, 0⟩ ⟨Payment.pother, none⟩ 0).1 (by decide),
   (is_within_days_policy ⟨2026, 10, 12, 0, 0⟩ ⟨Payment.pother, none⟩ 5).2 (by decide)
     (Or.inl rfl)⟩

/-! ## Nonnegativity of the cascade -/

theorem convResult_cases (n : List Char) (m : Nat) :
    convResult n m = PyResult.raise ∨
    ∃ v : Int, 0 ≤ v ∧ convResult n m = PyResult.ret v := by
  unfold convResult
  cases h : intOfNumTimes n m with
  | none => exact Or.inl rfl
  | some k => exact Or.inr ⟨(k : Int), Int.natCast_nonneg k, rfl⟩

theorem step1_cases {cs : List Char} {r : PyResult} (h : step1 cs = some r) :
    r = PyResult.raise ∨ ∃ v : Int, 0 ≤ v ∧ r = PyResult.ret v := by
  unfold step1 at h
  split_ifs at h
  obtain ⟨n, _, rfl⟩ := Option.map_eq_some'.mp h
  exact convResult_cases n 10000

theorem step2_cases {cs : List Char} {r : PyResult} (h : step2 cs = some r) :
    r = PyResult.raise ∨ ∃ v : Int, 0 ≤ v ∧ r = PyResult.ret v := by
  unfold step2 at h
  split_ifs at h
  obtain ⟨n, _, rfl⟩ := Option.map_eq_some'.mp h
  exact convResult_cases n 1

theorem step3_cases {cs : List Char} {r : PyResult} (h : step3 cs = some r) :
    r = PyResult.raise ∨ ∃ v : Int, 0 ≤ v ∧ r = PyResult.ret v := by
  unfold step3 at h
  split_ifs at h
  obtain ⟨n, _, rfl⟩ := Option.map_eq_some'.mp h
  exact convResult_cases n 1

theorem step4_cases {cs : List Char} {r : PyResult} (h : step4 cs = some r) :
    r = PyResult.raise ∨ ∃ v : Int, 0 ≤ v ∧ r = PyResult.ret v := by
  unfold step4 at h
  split_ifs at h
  obtain ⟨n, _, rfl⟩ := Option.map_eq_some'.mp h
  exact convResult_cases n 1

theorem step5_cases {cs : List Char} {r : PyResult} (h : step5 cs = some r) :
    r = PyResult.raise ∨ ∃ v : Int, 0 ≤ v ∧ r = PyResult.ret v := by
  unfold step5 at h
  split_ifs at h
  obtain ⟨n, _, rfl⟩ := Option.map_eq_some'.mp h
  exact convResult_cases n 1

theorem step6_cases {cs : List Char} {r : PyResult} (h : step6 cs = some r) :
    r = PyResult.raise ∨ ∃ v : Int, 0 ≤ v ∧ r = PyResult.ret v := by
  unfold step6 at h
  split_ifs at h
  cases hr : findRun5 cs with
  | some run =>
    rw [hr, Option.some.injEq] at h
    exact Or.inr ⟨(natOfDigits run : Int), Int.natCast_nonneg _, h.symm⟩
  | none =>
    rw [hr] at h
    obtain ⟨run, _, rfl⟩ := Option.map_eq_some'.mp h
    exact Or.inr ⟨(natOfDigits run : Int), Int.natCast_nonneg _, rfl⟩

theorem step7_cases {cs : List Char} {r : PyResult} (h : step7 cs = some r) :
    r = PyResult.raise ∨ ∃ v : Int, 0 ≤ v ∧ r = PyResult.ret v := by
  unfold step7 at h
  cases h5 : findB5plus false cs with
  | some run =>
    rw [h5, Option.some.injEq] at h
    exact Or.inr ⟨(natOfDigits run : Int), Int.natCast_nonneg _, h.symm⟩
  | none =>
    rw [h5] at h
    cases h4 : findB4 false cs with
    | some run =>
      rw [h4, Option.some.injEq] at h
      exact Or.inr ⟨(natOfDigits run : Int), Int.natCast_nonneg _, h.symm⟩
    | none =>
      rw [h4] at h
      cases h13 : findB13 false cs with
      | some run =>
        rw [h13, Option.some.injEq] at h
        exact Or.inr ⟨_, Int.natCast_nonneg _, h.symm⟩
      | none => rw [h13] at h; cases h

theorem extractCascade_cases (cs : List Char) :
    extractCascade cs = PyResult.raise ∨
    ∃ v : Int, -1 ≤ v ∧ extractCascade cs = PyResult.ret v := by
  have weaken : ∀ r : PyResult,
      (r = PyResult.raise ∨ ∃ v : Int, 0 ≤ v ∧ r = PyResult.ret v) →
      r = PyResult.raise ∨ ∃ v : Int, -1 ≤ v ∧ r = PyResult.ret v := by
    rintro r (h | ⟨v, hv, h⟩)
    · exact Or.inl h
    · exact Or.inr ⟨v, by omega, h⟩
  unfold extractCascade
  cases h1 : step1 cs with
  | some r => exact weaken r (step1_cases h1)
  | none =>
  cases h2 : step2 cs with
  | some r => exact weaken r (step2_cases h2)
  | none =>
  cases h3 : step3 cs with
  | some r => exact weaken r (step3_cases h3)
  | none =>
  cases h4 : step4 cs with
  | some r => exact weaken r (step4_cases h4)
  | none =>
  cases h5 : step5 cs with
  | some r => exact weaken r (step5_cases h5)
  | none =>
  cases h6 : step6 cs with
  | some r => exact weaken r (step6_cases h6)
  | none =>
  cases h7 : step7 cs with
  | some r => exact weaken r (step7_cases h7)
  | none => exact Or.inr ⟨-1, le_refl _, rfl⟩

theorem priceTable_vals_ge : ∀ e ∈ priceTable, (-1 : Int) ≤ e.2 := by decide

theorem extractPriceCore_cases (cs : List Char) :
    extractPriceCore cs = PyResult.raise ∨
    ∃ v : Int, -1 ≤ v ∧ extractPriceCore cs = PyResult.ret v := by
  unfold extractPriceCore
  by_cases hs : containsSub specialSample cs = true
  · rw [if_pos hs]
    exact Or.inr ⟨50, by norm_num, rfl⟩
  · rw [if_neg hs]
    cases hf : priceTable.find? (fun e => e.1 = cs) with
    | some e =>
      exact Or.inr ⟨e.2, priceTable_vals_ge e (List.mem_of_find?_eq_some hf), rfl⟩
    | none => exact extractCascade_cases cs

/-- C4 (counterexample): on a 309-digit price numeral the claimed
no-raise totality fails — `float('9'*309)` is `inf` and `int(inf)` raises
`OverflowError`, which propagates (no `try`/`except` in the function). -/
theorem extract_price_overflow_raises :
    extract_price_from_text (some (String.mk (List.replicate 309 '9' ++ ['円']))) =
      PyResult.raise := by decide

/-- C4 (amended): `extract_price_from_text` terminates on any input — any
string (including the empty one) and the non-string `None` — and either
raises `OverflowError` (only possible when a matched price numeral reaches
the IEEE-double overflow threshold) or returns the `-1` sentinel or a
non-negative integer; no other failure signal exists. -/
theorem extract_price_total_codomain (t : Option String) :
    extract_price_from_text t = PyResult.raise ∨
    ∃ v : Int, -1 ≤ v ∧ extract_price_from_text t = PyResult.ret v := by
  cases t with
  | none => exact Or.inr ⟨-1, le_refl _, rfl⟩
  | some s =>
    show (if s.data = [] then PyResult.ret (-1) else extractPriceCore s.data) =
        PyResult.raise ∨
      ∃ v : Int, -1 ≤ v ∧
        (if s.data = [] then PyResult.ret (-1) else extractPriceCore s.data) =
          PyResult.ret v
    by_cases he : s.data = []
    · rw [if_pos he]
      exact Or.inr ⟨-1, le_refl _, rfl⟩
    · rw [if_neg he]
      exact extractPriceCore_cases s.data

/-! ## Scanner lemmas for the 万円 branch -/

theorem isPrefixOf_self : ∀ l : List Char, l.isPrefixOf l = true
  | [] => rfl
  | c :: l => by simp [List.isPrefixOf, isPrefixOf_self l]

theorem isPrefixOf_implies_mem :
    ∀ (p l : List Char), p.isPrefixOf l = true → ∀ c ∈ p, c ∈ l
  | [], _, _, c, hc => absurd hc (List.not_mem_nil c)
  | _ :: _, [], h, _, _ => by cases h
  | a :: p, b :: l, h, c, hc => by
    simp only [List.isPrefixOf, Bool.and_eq_true, beq_iff_eq] at h
    obtain ⟨rfl, hpl⟩ := h
    rcases List.mem_cons.mp hc with rfl | hc
    · exact List.mem_cons_self c l
    · exact List.mem_cons_of_mem _ (isPrefixOf_implies_mem p l hpl c hc)

theorem containsSub_implies_mem :
    ∀ (p cs : List Char), containsSub p cs = true → ∀ c ∈ p, c ∈ cs
  | p, [], h, c, hc => by
    cases p with
    | nil => exact absurd hc (List.not_mem_nil c)
    | cons a p => cases h
  | p, b :: cs, h, c, hc => by
    simp only [containsSub, Bool.or_eq_true] at h
    rcases h with h | h
    · exact isPrefixOf_implies_mem p (b :: cs) h c hc
    · exact List.mem_cons_of_mem _ (containsSub_implies_mem p cs h c hc)

theorem containsSub_app_self (p : List Char) :
    ∀ l : List Char, containsSub p (l ++ p) = true
  | [] => by
    cases p with
    | nil => rfl
    | cons a p => simp [containsSub, isPrefixOf_self]
  | c :: l => by
    simp [containsSub, containsSub_app_self p l]

/-- A string of digits followed by `万円` contains no other characters. -/
theorem no_extra_char {ds : List Char} (h2 : ∀ c ∈ ds, c.isDigit = true)
    {c : Char} (hc : c.isDigit = false) (hm : c ≠ '万') (hy : c ≠ '円') :
    c ∉ ds ++ ['万', '円'] := by
  intro hmem
  rcases List.mem_append.mp hmem with h | h
  · rw [h2 c h] at hc; cases hc
  · rcases List.mem_cons.mp h with rfl | h
    · exact hm rfl
    · rcases List.mem_cons.mp h with rfl | h
      · exact hy rfl
      · exact List.not_mem_nil c h

theorem takeWhile_app_all (p : Char → Bool) :
    ∀ (l r : List Char), (∀ c ∈ l, p c = true) →
      (∀ x xs, r = x :: xs → p x = false) → (l ++ r).takeWhile p = l
  | [], [], _, _ => rfl
  | [], x :: xs, _, hr => by simp [List.takeWhile_cons, hr x xs rfl]
  | a :: l, r, hl, hr => by
    have ha : p a = true := hl a (List.mem_cons_self a l)
    simp only [List.cons_append, List.takeWhile_cons, ha, if_true]
    rw [takeWhile_app_all p l r (fun c hc => hl c (List.mem_cons_of_mem a hc)) hr]

theorem takeWhile_all (p : Char → Bool) :
    ∀ l : List Char, (∀ c ∈ l, p c = true) → l.takeWhile p = l
  | [], _ => rfl
  | a :: l, hl => by
    have ha : p a = true := hl a (List.mem_cons_self a l)
    simp only [List.takeWhile_cons, ha, if_true]
    rw [takeWhile_all p l (fun c hc => hl c (List.mem_cons_of_mem a hc))]

/-- On an all-digit numeral below the overflow threshold, `int(float(s) * m)`
is plain multiplication. -/
theorem intOfNumTimes_digits {ds : List Char} (h2 : ∀ c ∈ ds, c.isDigit = true)
    (m : Nat) (hT : natOfDigits ds * m < floatOverflowNat) :
    intOfNumTimes ds m = some (natOfDigits ds * m) := by
  have hne : ∀ c ∈ ds, (fun c => decide (c ≠ '.')) c = true := by
    intro c hc
    have hd := h2 c hc
    simp only [decide_eq_true_eq, ne_eq]
    intro hdot
    subst hdot
    exact absurd hd (by decide)
  unfold intOfNumTimes
  rw [takeWhile_all (fun c => decide (c ≠ '.')) ds hne]
  dsimp only
  rw [List.drop_length]
  dsimp only
  rw [if_neg (not_le.mpr hT)]

/-- The anchored 万円 match at the head of `<digits>万円` captures the
digits. -/
theorem matchNumSuffixAt_manen (ds : List Char) (h1 : ds ≠ [])
    (h2 : ∀ c ∈ ds, c.isDigit = true) :
    matchNumSuffixAt ['万', '円'] (ds ++ ['万', '円']) = some ds := by
  have ht : (ds ++ ['万', '円']).takeWhile Char.isDigit = ds :=
    takeWhile_app_all _ ds ['万', '円'] h2
      (by intro x xs hx; cases hx; decide)
  have hemp : ds.isEmpty = false := by
    cases ds with
    | nil => exact absurd rfl h1
    | cons a l => rfl
  unfold matchNumSuffixAt
  rw [ht]
  dsimp only
  rw [hemp]
  simp only [Bool.false_eq_true, if_false, List.drop_left]
  rfl

/-- The leftmost 万円 match on `<digits>万円` captures the digits. -/
theorem findNumSuffix_manen (ds : List Char) (h1 : ds ≠ [])
    (h2 : ∀ c ∈ ds, c.isDigit = true) :
    findNumSuffix ['万', '円'] (ds ++ ['万', '円']) = some ds := by
  cases hds : ds with
  | nil => exact absurd hds h1
  | cons d ds' =>
    subst hds
    rw [List.cons_append, findNumSuffix, ← List.cons_append,
      matchNumSuffixAt_manen _ h1 h2]

/-- The special-cased substring does not occur in `<digits>万円`. -/
theorem specialSample_not_in_manen {ds : List Char}
    (h2 : ∀ c ∈ ds, c.isDigit = true) :
    containsSub specialSample (ds ++ ['万', '円']) = false := by
  refine Bool.eq_false_iff.mpr (fun h => ?_)
  exact no_extra_char h2 (by decide) (by decide) (by decide)
    (containsSub_implies_mem _ _ h '報' (by decide))

/-- A list equal to `<digits>万円` must contain `万` and consist of digits,
`万` and `円` only. -/
theorem manen_shape_absurd {ds : List Char} (h2 : ∀ c ∈ ds, c.isDigit = true)
    {L : List Char} (heq : L = ds ++ ['万', '円'])
    (hbad : ¬('万' ∈ L ∧ ∀ c ∈ L, c.isDigit = true ∨ c = '万' ∨ c = '円')) :
    False := by
  apply hbad
  subst heq
  refine ⟨by simp, ?_⟩
  intro c hc
  rcases List.mem_append.mp hc with h | h
  · exact Or.inl (h2 c h)
  · rcases List.mem_cons.mp h with rfl | h
    · exact Or.inr (Or.inl rfl)
    · rcases List.mem_cons.mp h with rfl | h
      · exact Or.inr (Or.inr rfl)
      · exact absurd h (List.not_mem_nil c)

/-- The only literal-table entry of the shape `<digits>万円` is `5万円`. -/
theorem priceTable_manen {ds : List Char} (h2 : ∀ c ∈ ds, c.isDigit = true)
    (e : List Char × Int) (hmem : e ∈ priceTable)
    (heq : e.1 = ds ++ ['万', '円']) : ds = ['5'] ∧ e.2 = 50000 := by
  fin_cases hmem <;> dsimp only at heq ⊢ <;>
    first
      | exact absurd heq.symm (fun h => manen_shape_absurd h2 h.symm (by decide))
      | exact ⟨(List.append_cancel_right
          ((by decide : (['5'] ++ ['万', '円'] : List Char) = "5万円".data).trans
            heq)).symm, rfl⟩

/-- Step 1 on `<digits>万円` below the overflow threshold returns the digits
times 10000. -/
theorem step1_manen (ds : List Char) (h1 : ds ≠ [])
    (h2 : ∀ c ∈ ds, c.isDigit = true)
    (hT : natOfDigits ds * 10000 < floatOverflowNat) :
    step1 (ds ++ ['万', '円']) =
      some (PyResult.ret ((natOfDigits ds * 10000 : Nat) : Int)) := by
  unfold step1
  rw [containsSub_app_self ['万', '円'] ds]
  simp only [if_true]
  rw [findNumSuffix_manen ds h1 h2, Option.map_some']
  unfold convResult
  rw [intOfNumTimes_digits h2 10000 hT]

/-- C2 (counterexample): for the numeral `1.00001` the claimed value
`N × 10000 = 10000.1` is not what the function returns (nor any integer);
the code truncates to 10000. -/
theorem extract_price_manen_counterexample :
    extract_price_from_text (some "1.00001万円") = PyResult.ret 10000 ∧
    ratOfNum "1.00001".data * 10000 ≠ ((10000 : Int) : ℚ) := by
  constructor
  · decide
  · have h : ratOfNum "1.00001".data =
        (natOfDigits "1".data : ℚ) +
          (natOfDigits "00001".data : ℚ) / (10 ^ ("00001".data.length)) := rfl
    have h1 : natOfDigits "1".data = 1 := by decide
    have h2 : natOfDigits "00001".data = 1 := by decide
    have h3 : ("00001".data.length) = 5 := by decide
    rw [h, h1, h2, h3]
    norm_num

/-- C2 (amended): for every decimal **integer** numeral `N` (within the range
where Python's float conversion is exact), the input `N万円` yields
`N × 10000`; with a fractional part the claim fails (see the
counterexample, where the product is not an integer and the code floors). -/
theorem extract_price_manen_amended (ds : List Char) (h1 : ds ≠ [])
    (h2 : ∀ c ∈ ds, c.isDigit = true) (hfloat : natOfDigits ds ≤ 1000000000) :
    extract_price_from_text (some (String.mk (ds ++ ['万', '円']))) =
      PyResult.ret ((natOfDigits ds : Int) * 10000) := by
  have hT : natOfDigits ds * 10000 < floatOverflowNat :=
    lt_of_le_of_lt (Nat.mul_le_mul_right 10000 hfloat)
      (by decide : 1000000000 * 10000 < floatOverflowNat)
  have hne : ¬(ds ++ ['万', '円'] = ([] : List Char)) := by simp
  show (if ds ++ ['万', '円'] = [] then PyResult.ret (-1)
        else extractPriceCore (ds ++ ['万', '円'])) =
      PyResult.ret ((natOfDigits ds : Int) * 10000)
  rw [if_neg hne]
  unfold extractPriceCore
  rw [specialSample_not_in_manen h2]
  simp only [Bool.false_eq_true, if_false]
  cases hf : priceTable.find? (fun e => e.1 = ds ++ ['万', '円']) with
  | some e =>
    obtain ⟨hds, hval⟩ := priceTable_manen h2 e (List.mem_of_find?_eq_some hf)
      (by have := List.find?_some hf; simpa using this)
    show PyResult.ret e.2 = PyResult.ret ((natOfDigits ds : Int) * 10000)
    rw [hval, hds]
    decide
  | none =>
    show extractCascade (ds ++ ['万', '円']) =
      PyResult.ret ((natOfDigits ds : Int) * 10000)
    unfold extractCascade
    rw [step1_manen ds h1 h2 hT]
    show PyResult.ret ((natOfDigits ds * 10000 : Nat) : Int) =
      PyResult.ret ((natOfDigits ds : Int) * 10000)
    congr 1

/-- C2 (witness for the amended theorem): `12万円` yields 120000. -/
theorem extract_price_manen_amended_witness :
    extract_price_from_text (some (String.mk (['1', '2'] ++ ['万', '円']))) =
      PyResult.ret 120000 := by
  have h := extract_price_manen_amended ['1', '2'] (by decide) (by decide) (by decide)
  rw [h]
  decide

/-! ## The range branch (claim C3) -/

/-- Every literal-table entry that satisfies the range-claim hypotheses
(contains `〜`, no `万円`, left operand with a yen amount) is consistent with
the left-operand reading. -/
theorem priceTable_range {cs ns : List Char} (e : List Char × Int)
    (hmem : e ∈ priceTable) (heq : e.1 = cs)
    (hTilde : containsSub ['〜'] cs = true)
    (hMan : containsSub ['万', '円'] cs = false)
    (hLeft : findNumSuffix ['円'] (pyStrip ((splitOnChar '〜' cs).headD [])) = some ns) :
    e.2 = (natOfDigits (ns.takeWhile (fun c => c ≠ '.')) : Int) := by
  fin_cases hmem <;> dsimp only at heq ⊢ <;> subst heq
  · exact absurd hTilde (by decide)
  · exact absurd hTilde (by decide)
  · exact absurd hTilde (by decide)
  · have hns := Option.some.inj ((by decide :
        findNumSuffix ['円']
          (pyStrip ((splitOnChar '〜' "10000円 〜 20000円".data).headD [])) =
        some "10000".data).symm.trans hLeft)
    subst hns
    decide
  · have hns := Option.some.inj ((by decide :
        findNumSuffix ['円']
          (pyStrip ((splitOnChar '〜' "50000円〜100000円".data).headD [])) =
        some "50000".data).symm.trans hLeft)
    subst hns
    decide
  · exact Option.noConfusion ((by decide :
        findNumSuffix ['円']
          (pyStrip ((splitOnChar '〜' "〜 50000円".data).headD [])) =
        (none : Option (List Char))).symm.trans hLeft)
  · exact absurd hTilde (by decide)
  · exact absurd hTilde (by decide)
  · exact absurd hTilde (by decide)
  · exact absurd hTilde (by decide)
  · have hns := Option.some.inj ((by decide :
        findNumSuffix ['円']
          (pyStrip ((splitOnChar '〜' "100000.0円 〜 300000.0円".data).headD [])) =
        some "100000.0".data).symm.trans hLeft)
    subst hns
    decide
  · have hns := Option.some.inj ((by decide :
        findNumSuffix ['円']
          (pyStrip ((splitOnChar '〜' "10000.0円 〜 50000.0円".data).headD [])) =
        some "10000.0".data).symm.trans hLeft)
    subst hns
    decide
  · have hns := Option.some.inj ((by decide :
        findNumSuffix ['円']
          (pyStrip ((splitOnChar '〜' "時給 1500円 〜 2000円".data).headD [])) =
        some "1500".data).symm.trans hLeft)
    subst hns
    decide
  · exact absurd hTilde (by decide)
  · have hns := Option.some.inj ((by decide :
        findNumSuffix ['円']
          (pyStrip ((splitOnChar '〜' "時給1000円〜1500円".data).headD [])) =
        some "1000".data).symm.trans hLeft)
    subst hns
    decide
  · exact absurd hTilde (by decide)
  · have hns := Option.some.inj ((by decide :
        findNumSuffix ['円']
          (pyStrip ((splitOnChar '〜'
            "記事単価 2400.0円 (1500.0〜1500.0文字)".data).headD [])) =
        some "2400.0".data).symm.trans hLeft)
    subst hns
    decide
  · exact absurd hMan (by decide)
  · exact absurd hMan (by decide)
  · exact absurd hMan (by decide)
  · exact absurd hTilde (by decide)
  · exact absurd hTilde (by decide)
  · exact absurd hTilde (by decide)
  · exact absurd hTilde (by decide)

/-- C3 (counterexample): in `1万円の案件: 3000円〜5000円` both range operands
carry a yen amount and the left operand's amount is 3000, yet the function
returns 10000 — the 万円 branch runs before the range branch. -/
theorem extract_price_range_counterexample :
    extract_price_from_text (some "1万円の案件: 3000円〜5000円") = PyResult.ret 10000 ∧
    findNumSuffix ['円']
        (pyStrip ((splitOnChar '〜' "1万円の案件: 3000円〜5000円".data).headD [])) =
      some "3000".data ∧
    findNumSuffix ['円']
        ((splitOnChar '〜' "1万円の案件: 3000円〜5000円".data).getD 1 []) =
      some "5000".data ∧
    intOfNumTimes "3000".data 1 = some 3000 ∧ (10000 : Int) ≠ 3000 := by
  refine ⟨by decide, by decide, by decide, by decide, by decide⟩

/-- A numeral whose dropped part consists of `.` and `0` only contributes
nothing (each such character contributes `c.toNat - 48 = 0`). -/
theorem natOfDigits_zeros :
    ∀ l : List Char, (∀ c ∈ l, c = '.' ∨ c = '0') → natOfDigits l = 0
  | [], _ => rfl
  | c :: l, h => by
    have hc : c = '.' ∨ c = '0' := h c (List.mem_cons_self c l)
    have hz : 10 * 0 + (c.toNat - 48) = 0 := by
      rcases hc with rfl | rfl <;> decide
    unfold natOfDigits
    rw [List.foldl_cons, hz]
    exact natOfDigits_zeros l (fun c hc => h c (List.mem_cons_of_mem _ hc))

/-- `int(float(s))` on an integer-valued numeral below the exactness bound:
no overflow, and the value is the integer part. -/
theorem intOfNumTimes_one_of_intValued (ns : List Char)
    (hZ : ∀ c ∈ ns.drop ((ns.takeWhile (fun c => c ≠ '.')).length), c = '.' ∨ c = '0')
    (hS : natOfDigits (ns.takeWhile (fun c => c ≠ '.')) ≤ 1000000000) :
    intOfNumTimes ns 1 = some (natOfDigits (ns.takeWhile (fun c => c ≠ '.'))) := by
  have hT : natOfDigits (ns.takeWhile (fun c => decide (c ≠ '.'))) < floatOverflowNat :=
    lt_of_le_of_lt hS (by decide : 1000000000 < floatOverflowNat)
  unfold intOfNumTimes
  dsimp only
  cases hd : ns.drop ((ns.takeWhile (fun c => decide (c ≠ '.'))).length) with
  | nil =>
    rw [if_neg (not_le.mpr (by simpa using hT))]
    rw [Nat.mul_one]
  | cons x frac =>
    rw [hd] at hZ
    have hfrac : natOfDigits frac = 0 :=
      natOfDigits_zeros frac (fun c hc => hZ c (List.mem_cons_of_mem x hc))
    have hpos : 0 < 10 ^ frac.length := Nat.pos_pow_of_pos _ (by norm_num)
    dsimp only
    rw [hfrac, Nat.add_zero, Nat.mul_one]
    rw [if_neg (not_le.mpr ((Nat.mul_lt_mul_right hpos).mpr hT))]
    rw [Nat.mul_div_cancel _ hpos]

/-- C3 (amended): if the input contains the range separator and both operands
carry a yen amount, the input contains neither `万円` (whose branch runs
first) nor the special-cased test substring, **and** the left amount is an
integer-valued numeral (fractional part absent or zero) within the
float-exactness bound, then the function returns the amount of the left
operand (the first yen-suffixed number in the part before the first `〜`). -/
theorem extract_price_range_amended (cs ns : List Char)
    (hTilde : containsSub ['〜'] cs = true)
    (hMan : containsSub ['万', '円'] cs = false)
    (hSp : containsSub specialSample cs = false)
    (hCirc : containsSub ['円'] (pyStrip ((splitOnChar '〜' cs).headD [])) = true)
    (hLeft : findNumSuffix ['円'] (pyStrip ((splitOnChar '〜' cs).headD [])) = some ns)
    (hRight : ∃ ns', findNumSuffix ['円'] ((splitOnChar '〜' cs).getD 1 []) = some ns')
    (hZ : ∀ c ∈ ns.drop ((ns.takeWhile (fun c => c ≠ '.')).length), c = '.' ∨ c = '0')
    (hS : natOfDigits (ns.takeWhile (fun c => c ≠ '.')) ≤ 1000000000) :
    extract_price_from_text (some (String.mk cs)) =
      PyResult.ret ((natOfDigits (ns.takeWhile (fun c => c ≠ '.')) : Nat) : Int) := by
  have hne : cs ≠ [] := by
    intro h
    subst h
    exact absurd hTilde (by decide)
  show (if cs = [] then PyResult.ret (-1) else extractPriceCore cs) =
    PyResult.ret ((natOfDigits (ns.takeWhile (fun c => c ≠ '.')) : Nat) : Int)
  rw [if_neg hne]
  unfold extractPriceCore
  rw [hSp]
  simp only [Bool.false_eq_true, if_false]
  cases hf : priceTable.find? (fun e => e.1 = cs) with
  | some e =>
    show PyResult.ret e.2 = _
    rw [priceTable_range e (List.mem_of_find?_eq_some hf)
      (by have := List.find?_some hf; simpa using this) hTilde hMan hLeft]
  | none =>
    show extractCascade cs = _
    have hs1 : step1 cs = none := by
      unfold step1
      rw [hMan]
      simp
    have hs2 : step2 cs =
        some (PyResult.ret ((natOfDigits (ns.takeWhile (fun c => c ≠ '.')) : Nat) : Int)) := by
      unfold step2
      rw [hTilde]
      simp only [if_true]
      rw [hCirc]
      simp only [if_true]
      rw [hLeft, Option.map_some']
      unfold convResult
      rw [intOfNumTimes_one_of_intValued ns hZ hS]
    unfold extractCascade
    rw [hs1, hs2]

/-- C3 (witness for the amended theorem). -/
theorem extract_price_range_amended_witness :
    extract_price_from_text (some (String.mk "3000円〜5000円".data)) =
      PyResult.ret 3000 := by
  have h := extract_price_range_amended "3000円〜5000円".data "3000".data
    (by decide) (by decide) (by decide) (by decide) (by decide)
    ⟨"5000".data, by decide⟩ (by decide) (by decide)
  rw [h]
  decide

/-! ## Concrete evaluation checks

Kernel-evaluated samples of the embedded `extract_price_from_text`,
cross-checked against the behaviour of the Python source (table hits, every
cascade step, the word-boundary semantics, and the fallback scaling). -/

example : extract_price_from_text (some "50000円") = PyResult.ret 50000 := by decide
example : extract_price_from_text (some "5万円") = PyResult.ret 50000 := by decide
example : extract_price_from_text (some "応相談") = PyResult.ret (-1) := by decide
example : extract_price_from_text (some "1.00001万円") = PyResult.ret 10000 := by decide
example : extract_price_from_text (some "1万円の案件: 3000円〜5000円") = PyResult.ret 10000 := by decide
example : extract_price_from_text (some "報酬は50000.0円です") = PyResult.ret 50000 := by decide
example : extract_price_from_text (some "") = PyResult.ret (-1) := by decide
example : extract_price_from_text none = PyResult.ret (-1) := by decide
example : extract_price_from_text (some "納期：3日以内、報酬：20000円") = PyResult.ret 20000 := by decide
example : extract_price_from_text (some "12万円") = PyResult.ret 120000 := by decide
example : extract_price_from_text (some "時給1000円〜1500円") = PyResult.ret 1000 := by decide
example : extract_price_from_text (some "あと3日") = PyResult.ret (-1) := by decide
example : extract_price_from_text (some "予算は300ほど") = PyResult.ret (-1) := by decide
example : extract_price_from_text (some "300") = PyResult.ret 300 := by decide
example : extract_price_from_text (some "5") = PyResult.ret 5000 := by decide
example : extract_price_from_text (some "2000") = PyResult.ret 2000 := by decide
example : extract_price_from_text (some "5.5 万円") = PyResult.ret 55000 := by decide
example : extract_price_from_text (some "5.5x万円") = PyResult.ret 5000 := by decide
example : extract_price_from_text (some "9円〜報酬は50.0円です") = PyResult.ret 50 := by decide
example : extract_price_from_text (some "時給は時給1500円") = PyResult.ret 1500 := by decide
example : extract_price_from_text (some "abc 45 def") = PyResult.ret 4500 := by decide
example : extract_price_from_text (some "45") = PyResult.ret 4500 := by decide
example : extract_price_from_text (some "123456 78") = PyResult.ret 123456 := by decide
example : extract_price_from_text (some "a1234,567") = PyResult.ret 567 := by decide
example : extract_price_from_text (some "x 0012 y") = PyResult.ret 12 := by decide
example : extract_price_from_text (some "価格1234円") = PyResult.ret 1234 := by decide
example : extract_price_from_text (some "1,500円です") = PyResult.ret 500 := by decide
example : extract_price_from_text (some "フォロワー1000人 300円") = PyResult.ret 300 := by decide
example : extract_price_from_text (some "5.万円") = PyResult.ret 5000 := by decide
example : extract_price_from_text (some "万円") = PyResult.ret (-1) := by decide
example : extract_price_from_text (some "..5万円") = PyResult.ret 50000 := by decide
example : extract_price_from_text (some "時給 . 5") = PyResult.ret 5000 := by decide
example : extract_price_from_text (some "時給  900") = PyResult.ret 900 := by decide
example : extract_price_from_text (some "記事単価900字 200円") = PyResult.ret 900 := by decide
example : extract_price_from_text
    (some (String.mk (List.replicate 305 '9' ++ ['万', '円']))) = PyResult.raise := by decide
example : extract_price_from_text
    (some (String.mk ('時' :: '給' :: List.replicate 309 '9'))) = PyResult.raise := by decide
example : extract_price_from_text (some "1万円の案件") = PyResult.ret 10000 := by decide

end CrowdworksMonitor
